import Mathlib

/-!
# redcon `example/mdb`: the LMDB-backed request handler

A shallow embedding of `example/mdb/handler.go`.  The handler owns one LMDB
environment with a single table (the root table) and answers the commands
`ping`, `quit`, `set`, `get`, `setnx` and `del` on a redcon connection.

Two libraries are used by the handler and are not part of the repository:

* `redcon.Conn` is embedded as the list of replies written so far plus a
  closed flag;
* the `lmdb` binding is embedded as a transactional map.  `Env.run` follows the
  binding's `Env.View` / `Env.Update` contract: begin a transaction, run the
  operation, abort when the operation returns an error, commit otherwise.
  The engine refuses the empty key, and stores neither a key of more than 511
  bytes nor a value of more than 4294967295 bytes; that much is a function of
  the arguments and is part of `Txn.Get`, `Txn.Put` and `Txn.Del`.  What the
  engine may refuse for reasons that the arguments do not decide (no reader
  slot, map full, I/O error on commit, ...) is supplied from outside as a
  `Faults` value, one per transaction, so that statements quantified over
  `Faults` cover every outcome of a transaction.

The handler's write path hands the operation to a worker goroutine over an
unbuffered channel and waits for the result.  The sequential functions below
give the result of one such hand-off; the hand-off itself is embedded as a step
relation in the section on the worker.
-/

namespace Mdb

/-! ## Byte strings and replies -/

/-- Go byte slices and Go strings: sequences of bytes. -/
abbrev Bytes := List UInt8

/-- Bytes of a Go string literal.  Every literal of `handler.go` is plain
ASCII, one byte per character. -/
def lit (s : String) : Bytes := s.toList.map (fun c => c.toNat.toUInt8)

/-- One reply written on a connection, by the `redcon.Conn` method that wrote
it: `WriteString`, `WriteError`, `WriteNull`, `WriteBulk`, `WriteInt`. -/
inductive Reply where
  | str (s : Bytes)
  | error (msg : Bytes)
  | null
  | bulk (b : Bytes)
  | int (n : Int)
  deriving DecidableEq, Repr

/-- A client connection: the replies written on it, oldest first, and whether
`Close` has been called. -/
structure Conn where
  out : List Reply
  closed : Bool
  deriving DecidableEq, Repr

def Conn.WriteString (c : Conn) (s : Bytes) : Conn := { c with out := c.out ++ [Reply.str s] }

def Conn.WriteError (c : Conn) (msg : Bytes) : Conn := { c with out := c.out ++ [Reply.error msg] }

def Conn.WriteNull (c : Conn) : Conn := { c with out := c.out ++ [Reply.null] }

def Conn.WriteBulk (c : Conn) (b : Bytes) : Conn := { c with out := c.out ++ [Reply.bulk b] }

def Conn.WriteInt (c : Conn) (n : Int) : Conn := { c with out := c.out ++ [Reply.int n] }

def Conn.Close (c : Conn) : Conn := { c with closed := true }

/-- A parsed command: `Args[0]` is the command name as the client sent it. -/
structure Command where
  Args : List Bytes
  deriving DecidableEq, Repr

/-! ## The storage engine -/

/-- Error values of the storage engine.  The handler only ever tests an error
against `nil`. -/
inductive Errno where
  | notFound
  | keyExist
  | other (code : Int)
  deriving DecidableEq, Repr

/-- The engine's `MDB_MAP_FULL`: the memory map has no room left. -/
def Errno.mapFull : Errno := Errno.other (-30792)

/-- The system's `ENOSPC`: no space left on the device. -/
def Errno.noSpc : Errno := Errno.other 28

/-- The engine's `MDB_BAD_VALSIZE`: a key or a value of a size it does not
support. -/
def Errno.badValSize : Errno := Errno.other (-30781)

/-- The longest key the engine stores, in bytes (`MDB_MAXKEYSIZE`). -/
def maxKeySize : Nat := 511

/-- The longest value the engine stores in a table without duplicates, in
bytes (`MAXDATASIZE`). -/
def maxDataSize : Nat := 4294967295

/-- The sizes of key the engine stores: 1 to `maxKeySize` bytes. -/
def validKey (k : Bytes) : Bool := decide (0 < k.length ∧ k.length ≤ maxKeySize)

/-- Contents of the root table, as a list of entries.  A key is bound to the
value of its first entry; the engine holds no key of a size it does not store,
so such a key is bound to nothing.  `Dataset.put` and `Dataset.del` leave at
most one entry per key they touch. -/
abbrev Dataset := List (Bytes × Bytes)

def Dataset.get (d : Dataset) (k : Bytes) : Option Bytes :=
  if validKey k then List.lookup k d else Option.none

def Dataset.del (d : Dataset) (k : Bytes) : Dataset := d.filter (fun e => !(e.1 == k))

def Dataset.put (d : Dataset) (k v : Bytes) : Dataset := (k, v) :: Dataset.del d k

/-- Table handles.  The environment is configured for one table and the
handler opens the root table only. -/
inductive DBI where
  | root
  deriving DecidableEq, Repr

/-- Failures the engine may raise on its own in one transaction: when the
transaction begins, inside the single get / put / del the operation performs,
and when the transaction commits.  `none` means that step goes through. -/
structure Faults where
  onBegin : Option Errno
  onOp : Option Errno
  onCommit : Option Errno
  deriving DecidableEq, Repr

/-- The engine raises no failure of its own. -/
def Faults.none : Faults := ⟨Option.none, Option.none, Option.none⟩

inductive TxnKind where
  | view
  | update
  deriving DecidableEq, Repr

/-- Record of one transaction issued against the environment and the error
its `View` / `Update` call returned (`none`: it committed). -/
structure TxnEvent where
  kind : TxnKind
  result : Option Errno
  deriving DecidableEq, Repr

/-- The storage environment: its configuration, its life cycle, the committed
contents of the root table, and the transactions issued so far (oldest
first). -/
structure Env where
  mapSize : Nat
  maxDBs : Nat
  path : Bytes
  noSubdir : Bool
  mode : Nat
  opened : Bool
  closed : Bool
  root : Dataset
  txns : List TxnEvent
  deriving DecidableEq, Repr

/-- A running transaction: its view of the root table and the failure the
engine will raise inside its operation, if any. -/
structure Txn where
  data : Dataset
  opFault : Option Errno
  deriving DecidableEq, Repr

/-- Flags of `Txn.Put`. -/
inductive PutFlag where
  | zero
  | NoOverwrite
  deriving DecidableEq, Repr

/-- The empty key is refused; a key that is too long is bound to nothing. -/
def Txn.Get (txn : Txn) (_dbi : DBI) (key : Bytes) : Except Errno Bytes :=
  match txn.opFault with
  | some e => Except.error e
  | Option.none =>
    if key.length = 0 then Except.error Errno.badValSize
    else
      match Dataset.get txn.data key with
      | some v => Except.ok v
      | Option.none => Except.error Errno.notFound

/-- A key or a value of a size the engine does not store is refused before
anything else is looked at. -/
def Txn.Put (txn : Txn) (_dbi : DBI) (key val : Bytes) (flags : PutFlag) : Option Errno × Txn :=
  match txn.opFault with
  | some e => (some e, txn)
  | Option.none =>
    if key.length = 0 ∨ maxKeySize < key.length ∨ maxDataSize < val.length then
      (some Errno.badValSize, txn)
    else if flags = PutFlag.NoOverwrite ∧ (Dataset.get txn.data key).isSome then
      (some Errno.keyExist, txn)
    else
      (Option.none, { txn with data := Dataset.put txn.data key val })

/-- The empty key is refused; a key that is too long is bound to nothing. -/
def Txn.Del (txn : Txn) (_dbi : DBI) (key : Bytes) : Option Errno × Txn :=
  match txn.opFault with
  | some e => (some e, txn)
  | Option.none =>
    if key.length = 0 then (some Errno.badValSize, txn)
    else if (Dataset.get txn.data key).isSome then
      (Option.none, { txn with data := Dataset.del txn.data key })
    else
      (some Errno.notFound, txn)

/-- The root table always exists; opening it fails only when the engine
fails. -/
def Txn.OpenRoot (txn : Txn) : Except Errno DBI :=
  match txn.opFault with
  | some e => Except.error e
  | Option.none => Except.ok DBI.root

/-- An `lmdb.TxnOp` closure: it works on the transaction and on the variables
it captured (`σ`: the connection of a command, the `dbi` variable of
`NewHandler`), and returns its error. -/
abbrev TxnOp (σ : Type) := Txn → σ → Option Errno × Txn × σ

/-- The binding's `Env.run`: begin, run the operation, abort on its error,
commit otherwise.  Returns the error of the call, the environment (with the
transaction recorded) and the captured variables as the operation left
them. -/
def Env.run {σ : Type} (env : Env) (kind : TxnKind) (f : Faults) (op : TxnOp σ) (conn : σ) :
    Option Errno × Env × σ :=
  match f.onBegin with
  | some e => (some e, { env with txns := env.txns ++ [⟨kind, some e⟩] }, conn)
  | Option.none =>
    match op ⟨env.root, f.onOp⟩ conn with
    | (some e, _, conn1) => (some e, { env with txns := env.txns ++ [⟨kind, some e⟩] }, conn1)
    | (Option.none, txn1, conn1) =>
      match f.onCommit with
      | some e => (some e, { env with txns := env.txns ++ [⟨kind, some e⟩] }, conn1)
      | Option.none =>
        (Option.none,
          { env with
            root := if kind = TxnKind.update then txn1.data else env.root
            txns := env.txns ++ [⟨kind, Option.none⟩] },
          conn1)

/-- A read-only transaction. -/
def Env.View {σ : Type} (env : Env) (f : Faults) (op : TxnOp σ) (s : σ) :
    Option Errno × Env × σ :=
  Env.run env TxnKind.view f op s

/-- A write transaction issued by a goroutine that is already locked to its
thread. -/
def Env.UpdateLocked {σ : Type} (env : Env) (f : Faults) (op : TxnOp σ) (s : σ) :
    Option Errno × Env × σ :=
  Env.run env TxnKind.update f op s

/-- A write transaction; the binding locks the calling goroutine to its thread
for the duration. -/
def Env.Update {σ : Type} (env : Env) (f : Faults) (op : TxnOp σ) (s : σ) :
    Option Errno × Env × σ :=
  Env.run env TxnKind.update f op s

def Env.Close (env : Env) : Env := { env with closed := true }

/-- The call `lmdb.NewEnv`: a fresh environment, neither opened nor closed. -/
def NewEnv (fault : Option Errno) : Except Errno Env :=
  match fault with
  | some e => Except.error e
  | Option.none => Except.ok ⟨0, 0, [], false, 0, false, false, [], []⟩

def Env.SetMapSize (env : Env) (size : Nat) (fault : Option Errno) : Option Errno × Env :=
  match fault with
  | some e => (some e, env)
  | Option.none => (Option.none, { env with mapSize := size })

def Env.SetMaxDBs (env : Env) (size : Nat) (fault : Option Errno) : Option Errno × Env :=
  match fault with
  | some e => (some e, env)
  | Option.none => (Option.none, { env with maxDBs := size })

/-- Opening the file at `path`; `disk` is the root table stored in it (empty
for a file that is created). -/
def Env.Open (env : Env) (path : Bytes) (noSubdir : Bool) (mode : Nat) (disk : Dataset)
    (fault : Option Errno) : Option Errno × Env :=
  match fault with
  | some e => (some e, env)
  | Option.none =>
    (Option.none,
      { env with path := path, noSubdir := noSubdir, mode := mode, opened := true, root := disk })

/-! ## The handler -/

structure Handler where
  env : Env
  dbi : DBI
  deriving DecidableEq, Repr

def Handler.Close (h : Handler) : Handler := { h with env := Env.Close h.env }

def Handler.view (h : Handler) (f : Faults) (op : TxnOp Conn) (conn : Conn) :
    Option Errno × Handler × Conn :=
  match Env.View h.env f op conn with
  | (err, env1, conn1) => (err, { h with env := env1 }, conn1)

/-- The write path: the operation is handed to the worker, which runs
`env.UpdateLocked` on it and sends the result back. -/
def Handler.update (h : Handler) (f : Faults) (op : TxnOp Conn) (conn : Conn) :
    Option Errno × Handler × Conn :=
  match Env.UpdateLocked h.env f op conn with
  | (err, env1, conn1) => (err, { h with env := env1 }, conn1)

/-- The text of the only error reply: the command name between two fixed
pieces. -/
def wrongArgs (name : Bytes) : Bytes :=
  lit "ERR wrong number of arguments for '" ++ name ++ lit "' command"

def Handler.ping (h : Handler) (conn : Conn) (_cmd : Command) : Option (Handler × Conn) :=
  some (h, conn.WriteString (lit "PONG"))

def Handler.quit (h : Handler) (conn : Conn) (_cmd : Command) : Option (Handler × Conn) :=
  some (h, (conn.WriteString (lit "OK")).Close)

/-- The command `set`.  The result is `none` where the Go code stops with an
index-out-of-range fault (`cmd.Args[0]` on an empty argument list). -/
def Handler.set (f : Faults) (h : Handler) (conn : Conn) (cmd : Command) :
    Option (Handler × Conn) :=
  if cmd.Args.length ≠ 3 then
    match cmd.Args with
    | [] => Option.none
    | name :: _ => some (h, conn.WriteError (wrongArgs name))
  else
    match cmd.Args with
    | [_, key, val] =>
      match h.update f (fun txn c =>
          match txn.Put h.dbi key val PutFlag.zero with
          | (some e, txn1) => (some e, txn1, c.WriteNull)
          | (Option.none, txn1) => (Option.none, txn1, c.WriteString (lit "OK"))) conn with
      | (_, h1, conn1) => some (h1, conn1)
    | _ => Option.none

def Handler.get (f : Faults) (h : Handler) (conn : Conn) (cmd : Command) :
    Option (Handler × Conn) :=
  if cmd.Args.length ≠ 2 then
    match cmd.Args with
    | [] => Option.none
    | name :: _ => some (h, conn.WriteError (wrongArgs name))
  else
    match cmd.Args with
    | [_, key] =>
      match h.view f (fun txn c =>
          match txn.Get h.dbi key with
          | Except.error e => (some e, txn, c.WriteNull)
          | Except.ok val => (Option.none, txn, c.WriteBulk val)) conn with
      | (_, h1, conn1) => some (h1, conn1)
    | _ => Option.none

/-- The command `setnx`: `fv` governs the read transaction of the existence
check, `fu` the write transaction that follows it. -/
def Handler.setnx (fv fu : Faults) (h : Handler) (conn : Conn) (cmd : Command) :
    Option (Handler × Conn) :=
  if cmd.Args.length ≠ 3 then
    match cmd.Args with
    | [] => Option.none
    | name :: _ => some (h, conn.WriteError (wrongArgs name))
  else
    match cmd.Args with
    | [_, key, val] =>
      match h.view fv (fun txn c =>
          match txn.Get h.dbi key with
          | Except.error e => (some e, txn, c)
          | Except.ok _ => (Option.none, txn, c)) conn with
      | (Option.none, h1, conn1) => some (h1, conn1.WriteInt 0)
      | (some _, h1, conn1) =>
        match h1.update fu (fun txn c =>
            match txn.Put h1.dbi key val PutFlag.NoOverwrite with
            | (err, txn1) => (err, txn1, c)) conn1 with
        | (Option.none, h2, conn2) => some (h2, conn2.WriteInt 1)
        | (some _, h2, conn2) => some (h2, conn2)
    | _ => Option.none

def Handler.delete (f : Faults) (h : Handler) (conn : Conn) (cmd : Command) :
    Option (Handler × Conn) :=
  if cmd.Args.length ≠ 2 then
    match cmd.Args with
    | [] => Option.none
    | name :: _ => some (h, conn.WriteError (wrongArgs name))
  else
    match cmd.Args with
    | [_, key] =>
      match h.update f (fun txn c =>
          match txn.Del h.dbi key with
          | (some e, txn1) => (some e, txn1, c.WriteInt 0)
          | (Option.none, txn1) => (Option.none, txn1, c.WriteInt 1)) conn with
      | (_, h1, conn1) => some (h1, conn1)
    | _ => Option.none

/-- Failures the engine may raise during `NewHandler`, one per call it makes:
`lmdb.NewEnv`, `SetMapSize`, `SetMaxDBs`, `Open`, and the transaction that
opens the root table. -/
structure InitFaults where
  newEnv : Option Errno
  setMapSize : Option Errno
  setMaxDBs : Option Errno
  openEnv : Option Errno
  update : Faults
  deriving DecidableEq, Repr

/-- What a call of `NewHandler` leaves behind: the two values it returns, the
environment object it created (in the state it was left in, whether or not a
handler refers to it) and whether the worker goroutine was started. -/
structure NewHandlerResult where
  handler : Option Handler
  err : Option Errno
  env : Option Env
  worker : Bool
  deriving DecidableEq, Repr

def NewHandler (path : Bytes) (disk : Dataset) (f : InitFaults) : NewHandlerResult :=
  match NewEnv f.newEnv with
  | Except.error e => ⟨Option.none, some e, Option.none, false⟩
  | Except.ok env =>
    match env.SetMapSize ((5 * 1) <<< 30) f.setMapSize with
    | (some e, env1) => ⟨Option.none, some e, some env1, false⟩
    | (Option.none, env1) =>
      match env1.SetMaxDBs 1 f.setMaxDBs with
      | (some e, env2) => ⟨Option.none, some e, some env2, false⟩
      | (Option.none, env2) =>
        match env2.Open path true 0o644 disk f.openEnv with
        | (some e, env3) => ⟨Option.none, some e, some env3, false⟩
        | (Option.none, env3) =>
          match env3.Update f.update (fun txn dbi =>
              match txn.OpenRoot with
              | Except.error e => (some e, txn, dbi)
              | Except.ok d => (Option.none, txn, d)) DBI.root with
          | (some e, env4, _) => ⟨Option.none, some e, some env4.Close, false⟩
          | (Option.none, env4, dbi) => ⟨some ⟨env4, dbi⟩, Option.none, some env4, true⟩

/-- The handler after one more transaction was recorded. -/
def Handler.logged (h : Handler) (ev : TxnEvent) : Handler :=
  { h with env := { h.env with txns := h.env.txns ++ [ev] } }

/-! ## The worker

`NewHandler` starts one goroutine that loops over the unbuffered channel
`worker`: it receives an operation, runs `env.UpdateLocked` on it, and sends the
result on the operation's own unbuffered channel `res`.  `Handler.update` locks
`envMux`, sends the operation on `worker`, unlocks, and receives from `res`.
`Handler.view` holds `envMux` in shared mode around its read transaction.

The step relation below interleaves any number of tasks that each call
`update` once (a task that calls it again behaves as a further task) with the
worker and with tasks inside `view`.  A send on an unbuffered channel and the
matching receive are one step. -/

/-- Where a task stands inside `Handler.update`: before `Lock`, holding the
lock before the send, after the send, after `Unlock` waiting on `res`, and
after the result arrived. -/
inductive ClientPc where
  | calling
  | locked
  | sent
  | waiting
  | returned
  deriving DecidableEq, Repr

/-- Where the worker stands in its loop: receiving from `worker`, holding the
operation of task `i` before its transaction begins, inside that transaction,
and sending the result on the `res` channel of task `i`. -/
inductive WorkerPc where
  | receiving
  | holding (i : Nat)
  | running (i : Nat)
  | replying (i : Nat)
  deriving DecidableEq, Repr

/-- Begin and end of the write transaction of task `i`. -/
inductive WEvent where
  | began (i : Nat)
  | ended (i : Nat)
  deriving DecidableEq, Repr

/-- The steps of the system, by who takes them. -/
inductive Action where
  | lock (i : Nat)
  | send (i : Nat)
  | unlock (i : Nat)
  | txnBegin
  | txnEnd
  | deliver (i : Nat)
  | rlock
  | runlock
  deriving DecidableEq, Repr

/-- The tasks, the mutex `envMux` (its exclusive holder and the number of
shared holders), the worker, the operations in the order in which they were
handed to the channel, and the write transactions as they began and ended. -/
structure Sys where
  clients : List ClientPc
  writer : Option Nat
  readers : Nat
  worker : WorkerPc
  handed : List Nat
  log : List WEvent
  deriving DecidableEq, Repr

/-- The system right after `NewHandler` returned, with `n` tasks about to call
`update`. -/
def Sys.init (n : Nat) : Sys :=
  ⟨List.replicate n ClientPc.calling, none, 0, WorkerPc.receiving, [], []⟩

/-- One step; `none` when the step is not enabled (the task or the worker
would block). -/
def Sys.step (s : Sys) : Action → Option Sys
  | Action.lock i =>
    if s.clients[i]? = some ClientPc.calling ∧ s.writer = none ∧ s.readers = 0 then
      some { s with clients := s.clients.set i ClientPc.locked, writer := some i }
    else none
  | Action.send i =>
    if s.clients[i]? = some ClientPc.locked ∧ s.worker = WorkerPc.receiving then
      some { s with
        clients := s.clients.set i ClientPc.sent
        worker := WorkerPc.holding i
        handed := s.handed ++ [i] }
    else none
  | Action.unlock i =>
    if s.clients[i]? = some ClientPc.sent then
      some { s with clients := s.clients.set i ClientPc.waiting, writer := none }
    else none
  | Action.txnBegin =>
    match s.worker with
    | WorkerPc.holding i =>
      some { s with worker := WorkerPc.running i, log := s.log ++ [WEvent.began i] }
    | _ => none
  | Action.txnEnd =>
    match s.worker with
    | WorkerPc.running i =>
      some { s with worker := WorkerPc.replying i, log := s.log ++ [WEvent.ended i] }
    | _ => none
  | Action.deliver i =>
    if s.worker = WorkerPc.replying i ∧ s.clients[i]? = some ClientPc.waiting then
      some { s with clients := s.clients.set i ClientPc.returned, worker := WorkerPc.receiving }
    else none
  | Action.rlock =>
    if s.writer = none then some { s with readers := s.readers + 1 } else none
  | Action.runlock =>
    if 0 < s.readers then some { s with readers := s.readers - 1 } else none

/-- A schedule: the steps taken one after the other. -/
def Sys.run (s : Sys) : List Action → Option Sys
  | [] => some s
  | a :: rest =>
    match s.step a with
    | none => none
    | some s1 => s1.run rest

/-- The log of the operations `hs` run one at a time, each to its end, in the
order of `hs`. -/
def serial : List Nat → List WEvent
  | [] => []
  | i :: rest => WEvent.began i :: WEvent.ended i :: serial rest

/-- The write transactions that have begun and not ended after the log. -/
def inFlight (log : List WEvent) : List Nat :=
  log.foldl (fun open_ ev =>
    match ev with
    | WEvent.began i => open_ ++ [i]
    | WEvent.ended i => open_.erase i) []

/-- Whether a task is past its send on the channel `worker`. -/
def ClientPc.pastSend : ClientPc → Bool
  | ClientPc.sent => true
  | ClientPc.waiting => true
  | ClientPc.returned => true
  | _ => false

/-- Whether a task is past its send and has not received its result. -/
def ClientPc.pending : ClientPc → Bool
  | ClientPc.sent => true
  | ClientPc.waiting => true
  | _ => false

/-- The task whose operation the worker has at hand. -/
def WorkerPc.task : WorkerPc → Option Nat
  | WorkerPc.receiving => none
  | WorkerPc.holding i => some i
  | WorkerPc.running i => some i
  | WorkerPc.replying i => some i

/-- Steps a task still has to take or to wait for before `update` returns,
counted so that every step on the way to the end lowers the total. -/
def ClientPc.weight : ClientPc → Nat
  | ClientPc.calling => 7
  | ClientPc.locked => 6
  | ClientPc.sent => 2
  | ClientPc.waiting => 1
  | ClientPc.returned => 0

/-- Steps the worker still has to take on the operation at hand. -/
def WorkerPc.weight : WorkerPc → Nat
  | WorkerPc.receiving => 0
  | WorkerPc.holding _ => 3
  | WorkerPc.running _ => 2
  | WorkerPc.replying _ => 1

/-- What is left to do in the whole system. -/
def Sys.todo (s : Sys) : Nat := (s.clients.map ClientPc.weight).sum + s.worker.weight + s.readers

/-- What the worker's position says about the log, and how the tasks'
positions, the hand-off order, the worker and the mutex hang together: the
invariant of the step relation. -/
def Sys.Inv (s : Sys) : Prop :=
  (match s.worker with
    | WorkerPc.receiving => s.log = serial s.handed
    | WorkerPc.replying _ => s.log = serial s.handed
    | WorkerPc.holding i => ∃ hs, s.handed = hs ++ [i] ∧ s.log = serial hs
    | WorkerPc.running i => ∃ hs, s.handed = hs ++ [i] ∧ s.log = serial hs ++ [WEvent.began i]) ∧
  s.handed.Nodup ∧
  (∀ i, i ∈ s.handed ↔ ∃ pc, s.clients[i]? = some pc ∧ pc.pastSend = true) ∧
  (∀ i, s.worker.task = some i ↔ ∃ pc, s.clients[i]? = some pc ∧ pc.pending = true) ∧
  (∀ j, s.writer = some j →
    s.clients[j]? = some ClientPc.locked ∨ s.clients[j]? = some ClientPc.sent)

/-! ## Sample values -/

/-- An open environment as `NewHandler` configures it, holding `d`. -/
def sampleEnv (d : Dataset) : Env :=
  ⟨5368709120, 1, lit "/tmp/db", true, 0o644, true, false, d, []⟩

/-- A handler whose root table binds `k` to `old`. -/
def sampleHandler : Handler := ⟨sampleEnv [(lit "k", lit "old")], DBI.root⟩

/-- A handler on an empty root table. -/
def emptyHandler : Handler := ⟨sampleEnv [], DBI.root⟩

/-- A connection on which nothing was written yet. -/
def freshConn : Conn := ⟨[], false⟩

/-- A schedule of two tasks: task 1 hands its write over first, task 0 locks
while that write runs and hands its own over once the worker is back. -/
def sampleSchedule : List Action :=
  [Action.lock 1, Action.send 1, Action.txnBegin, Action.unlock 1, Action.lock 0, Action.txnEnd,
    Action.deliver 1, Action.send 0, Action.unlock 0, Action.txnBegin]

/-- The state `sampleSchedule` leads to: the write of task 1 is over, that of
task 0 is running. -/
def sampleSys : Sys :=
  ⟨[ClientPc.waiting, ClientPc.returned], none, 0, WorkerPc.running 0, [1, 0],
    [WEvent.began 1, WEvent.ended 1, WEvent.began 0]⟩

/-! ## The root table as a map -/

theorem validKey_iff (k : Bytes) : validKey k = true ↔ 0 < k.length ∧ k.length ≤ maxKeySize := by
  simp [validKey]

theorem Dataset.valid_of_get (d : Dataset) (k w : Bytes) (h : Dataset.get d k = some w) :
    0 < k.length ∧ k.length ≤ maxKeySize := by
  by_cases hv : validKey k = true
  · exact (validKey_iff k).1 hv
  · simp [Dataset.get, hv] at h

theorem lookup_del_self (d : Dataset) (k : Bytes) : List.lookup k (Dataset.del d k) = Option.none := by
  induction d with
  | nil => rfl
  | cons e d ih =>
    obtain ⟨a, b⟩ := e
    by_cases hak : a = k
    · subst hak
      simpa [Dataset.del, List.filter] using ih
    · have hka : (k == a) = false := by simpa using fun h => hak h.symm
      have hak2 : (a == k) = false := by simpa using hak
      simp only [Dataset.del, List.filter, hak2, Bool.not_false, List.lookup, hka]
      exact ih

theorem lookup_del_other (d : Dataset) (k k2 : Bytes) (hne : k2 ≠ k) :
    List.lookup k2 (Dataset.del d k) = List.lookup k2 d := by
  induction d with
  | nil => rfl
  | cons e d ih =>
    obtain ⟨a, b⟩ := e
    by_cases hak : a = k
    · subst hak
      have hka : (k2 == a) = false := by simpa using hne
      simp only [Dataset.del, List.filter, beq_self_eq_true, Bool.not_true, List.lookup, hka]
      exact ih
    · have hak2 : (a == k) = false := by simpa using hak
      simp only [Dataset.del, List.filter, hak2, Bool.not_false, List.lookup]
      cases hk2 : (k2 == a)
      · exact ih
      · rfl

theorem Dataset.get_del_self (d : Dataset) (k : Bytes) :
    Dataset.get (Dataset.del d k) k = Option.none := by
  simp [Dataset.get, lookup_del_self]

theorem Dataset.get_del_other (d : Dataset) (k k2 : Bytes) (hne : k2 ≠ k) :
    Dataset.get (Dataset.del d k) k2 = Dataset.get d k2 := by
  simp [Dataset.get, lookup_del_other d k k2 hne]

theorem Dataset.get_put_self (d : Dataset) (k v : Bytes) (hk : 0 < k.length)
    (hk2 : k.length ≤ maxKeySize) : Dataset.get (Dataset.put d k v) k = some v := by
  have hv : validKey k = true := (validKey_iff k).2 ⟨hk, hk2⟩
  simp [Dataset.get, Dataset.put, List.lookup, hv]

theorem Dataset.get_put_other (d : Dataset) (k v k2 : Bytes) (hne : k2 ≠ k) :
    Dataset.get (Dataset.put d k v) k2 = Dataset.get d k2 := by
  have hka : (k2 == k) = false := by simpa using hne
  simp [Dataset.get, Dataset.put, List.lookup, hka, lookup_del_other d k k2 hne]

/-! ## The engine's operations when the engine raises no failure -/

theorem Txn.Get_noFault (d : Dataset) (dbi : DBI) (k : Bytes) :
    Txn.Get ⟨d, Option.none⟩ dbi k =
      match Dataset.get d k with
      | some v => Except.ok v
      | Option.none =>
        Except.error (if k.length = 0 then Errno.badValSize else Errno.notFound) := by
  cases hg : Dataset.get d k with
  | none => by_cases hk : k.length = 0 <;> simp [Txn.Get, hg, hk]
  | some w =>
    have hk : k.length ≠ 0 := Nat.pos_iff_ne_zero.1 (Dataset.valid_of_get d k w hg).1
    simp [Txn.Get, hg, hk]

theorem Txn.Put_noFault (d : Dataset) (dbi : DBI) (k v : Bytes) (flags : PutFlag)
    (hk : 0 < k.length) (hk2 : k.length ≤ maxKeySize) (hv : v.length ≤ maxDataSize) :
    Txn.Put ⟨d, Option.none⟩ dbi k v flags =
      if flags = PutFlag.NoOverwrite ∧ (Dataset.get d k).isSome then
        (some Errno.keyExist, ⟨d, Option.none⟩)
      else (Option.none, ⟨Dataset.put d k v, Option.none⟩) := by
  have h : ¬ (k.length = 0 ∨ maxKeySize < k.length ∨ maxDataSize < v.length) := by omega
  simp only [Txn.Put, if_neg h]

theorem Txn.Del_present (d : Dataset) (dbi : DBI) (k w : Bytes) (hg : Dataset.get d k = some w) :
    Txn.Del ⟨d, Option.none⟩ dbi k = (Option.none, ⟨Dataset.del d k, Option.none⟩) := by
  have hk : k.length ≠ 0 := Nat.pos_iff_ne_zero.1 (Dataset.valid_of_get d k w hg).1
  simp [Txn.Del, hg, hk]

theorem Txn.Del_absent (d : Dataset) (fo : Option Errno) (dbi : DBI) (k : Bytes)
    (hg : Dataset.get d k = Option.none) :
    ∃ e, Txn.Del ⟨d, fo⟩ dbi k = (some e, ⟨d, fo⟩) := by
  cases fo with
  | some e => exact ⟨e, rfl⟩
  | none =>
    by_cases hk : k.length = 0
    · exact ⟨Errno.badValSize, by simp [Txn.Del, hk]⟩
    · exact ⟨Errno.notFound, by simp [Txn.Del, hk, hg]⟩

theorem Txn.Get_absent (d : Dataset) (fo : Option Errno) (dbi : DBI) (k : Bytes)
    (hg : Dataset.get d k = Option.none) :
    ∃ e, Txn.Get ⟨d, fo⟩ dbi k = Except.error e := by
  cases fo with
  | some e => exact ⟨e, rfl⟩
  | none =>
    by_cases hk : k.length = 0
    · exact ⟨Errno.badValSize, by simp [Txn.Get, hk]⟩
    · exact ⟨Errno.notFound, by simp [Txn.Get, hk, hg]⟩

/-! ## The commands on a running handler -/

/-- With no engine failure, `get` replies with the value bound to the key, or
with null when there is none, and leaves the root table alone. -/
theorem get_noFault (h : Handler) (c : Conn) (name k : Bytes) :
    Handler.get Faults.none h c ⟨[name, k]⟩ =
      match Dataset.get h.env.root k with
      | some v => some (h.logged ⟨TxnKind.view, Option.none⟩, c.WriteBulk v)
      | Option.none =>
        some (h.logged ⟨TxnKind.view,
          some (if k.length = 0 then Errno.badValSize else Errno.notFound)⟩, c.WriteNull) := by
  cases hg : Dataset.get h.env.root k <;>
    simp [Handler.get, Handler.view, Env.View, Env.run, Txn.Get_noFault, Faults.none, hg,
      Handler.logged]

/-- A put that went through was given a key the engine stores and left the key
bound to the value. -/
theorem Txn.Put_ok (txn txn1 : Txn) (dbi : DBI) (k v : Bytes) (flags : PutFlag)
    (h : Txn.Put txn dbi k v flags = (Option.none, txn1)) :
    txn1.data = Dataset.put txn.data k v ∧ 0 < k.length ∧ k.length ≤ maxKeySize := by
  unfold Txn.Put at h
  split at h
  · simp at h
  · split at h
    · simp at h
    · split at h
      · simp at h
      · rename_i hsz _
        simp only [Prod.mk.injEq, true_and] at h
        subst h
        exact ⟨rfl, by omega⟩

/-- A `set` whose write transaction committed was given a key the engine
stores and left the key bound to the value. -/
theorem set_committed_root (f : Faults) (h h1 : Handler) (conn conn1 : Conn) (name k v : Bytes)
    (hset : Handler.set f h conn ⟨[name, k, v]⟩ = some (h1, conn1))
    (hcommit : h1.env.txns = h.env.txns ++ [⟨TxnKind.update, Option.none⟩]) :
    h1.env.root = Dataset.put h.env.root k v ∧ 0 < k.length ∧ k.length ≤ maxKeySize := by
  rcases f with ⟨fb, fo, fc⟩
  cases hput : Txn.Put ⟨h.env.root, fo⟩ h.dbi k v PutFlag.zero with
  | mk err txn1 =>
    cases fb <;> cases err <;> cases fc <;>
      simp [Handler.set, Handler.update, Env.UpdateLocked, Env.run, hput] at hset <;>
      obtain ⟨rfl, rfl⟩ := hset <;> simp at hcommit
    exact Txn.Put_ok _ _ _ _ _ _ hput

/-- C1: after a `set` on key `k` with value `v` whose write transaction
committed (whatever the root table held before, `k` included, and also for the
empty value), a `get` on `k` that the engine serves writes exactly one reply,
the bulk reply carrying `v`, and leaves the root table as it was. -/
theorem set_then_get (f : Faults) (h h1 : Handler) (conn conn1 c : Conn) (name gname k v : Bytes)
    (hset : Handler.set f h conn ⟨[name, k, v]⟩ = some (h1, conn1))
    (hcommit : h1.env.txns = h.env.txns ++ [⟨TxnKind.update, Option.none⟩]) :
    ∃ h2 c2, Handler.get Faults.none h1 c ⟨[gname, k]⟩ = some (h2, c2) ∧
      c2.out = c.out ++ [Reply.bulk v] ∧ h2.env.root = h1.env.root := by
  obtain ⟨hroot, hk, hk2⟩ := set_committed_root f h h1 conn conn1 name k v hset hcommit
  refine ⟨h1.logged ⟨TxnKind.view, Option.none⟩, c.WriteBulk v, ?_, rfl, rfl⟩
  rw [get_noFault, hroot, Dataset.get_put_self _ _ _ hk hk2]

/-- C1 at a concrete input: `set k ""` over a handler that binds `k` to `old`
commits, and `get k` then replies with the empty bulk. -/
theorem set_then_get_witness :
    Handler.set Faults.none sampleHandler freshConn ⟨[lit "set", lit "k", []]⟩ =
        some (⟨{ sampleEnv [(lit "k", [])] with txns := [⟨TxnKind.update, Option.none⟩] },
          DBI.root⟩, ⟨[Reply.str (lit "OK")], false⟩) ∧
      ∃ h2 c2, Handler.get Faults.none
          ⟨{ sampleEnv [(lit "k", [])] with txns := [⟨TxnKind.update, Option.none⟩] }, DBI.root⟩
          freshConn ⟨[lit "get", lit "k"]⟩ = some (h2, c2) ∧
        c2.out = freshConn.out ++ [Reply.bulk []] ∧
        h2.env.root = [(lit "k", [])] :=
  ⟨by decide,
    set_then_get Faults.none sampleHandler _ freshConn _ freshConn (lit "set") (lit "get")
      (lit "k") [] (by decide : Handler.set Faults.none sampleHandler freshConn
        ⟨[lit "set", lit "k", []]⟩ = some (⟨{ sampleEnv [(lit "k", [])] with
          txns := [⟨TxnKind.update, Option.none⟩] }, DBI.root⟩, ⟨[Reply.str (lit "OK")], false⟩))
      (by decide)⟩

/-- With no engine failure in the existence check, `setnx` on a key that is
bound replies 0 after that one read transaction, whatever the write
transaction would have met. -/
theorem setnx_present (fu : Faults) (h : Handler) (c : Conn) (name k v w : Bytes)
    (hpres : Dataset.get h.env.root k = some w) :
    Handler.setnx Faults.none fu h c ⟨[name, k, v]⟩ =
      some (h.logged ⟨TxnKind.view, Option.none⟩, c.WriteInt 0) := by
  simp [Handler.setnx, Handler.view, Env.View, Env.run, Txn.Get_noFault, Faults.none, hpres,
    Handler.logged]

/-- With no engine failure, `setnx` with a key and a value of sizes the engine
stores, on a key that is not bound, writes the binding and replies 1. -/
theorem setnx_absent (h : Handler) (c : Conn) (name k v : Bytes)
    (habs : Dataset.get h.env.root k = Option.none)
    (hk : 0 < k.length) (hk2 : k.length ≤ maxKeySize) (hv : v.length ≤ maxDataSize) :
    Handler.setnx Faults.none Faults.none h c ⟨[name, k, v]⟩ =
      some (⟨{ h.env with
            root := Dataset.put h.env.root k v
            txns := h.env.txns ++ [⟨TxnKind.view, some Errno.notFound⟩] ++
              [⟨TxnKind.update, Option.none⟩] }, h.dbi⟩,
        c.WriteInt 1) := by
  have hk0 : k.length ≠ 0 := Nat.pos_iff_ne_zero.1 hk
  simp [Handler.setnx, Handler.view, Handler.update, Env.View, Env.UpdateLocked, Env.run,
    Txn.Get_noFault, Txn.Put_noFault _ _ _ _ _ hk hk2 hv, Faults.none, habs, hk0]

/-- With no engine failure, `setnx` on a key that is not bound, with a key or
a value of a size the engine does not store, issues its two transactions,
writes no reply and leaves the root table as it was. -/
theorem setnx_unstorable (h : Handler) (c : Conn) (name k v : Bytes)
    (habs : Dataset.get h.env.root k = Option.none)
    (hbad : k.length = 0 ∨ maxKeySize < k.length ∨ maxDataSize < v.length) :
    ∃ e, Handler.setnx Faults.none Faults.none h c ⟨[name, k, v]⟩ =
      some ((h.logged ⟨TxnKind.view, some e⟩).logged ⟨TxnKind.update, some Errno.badValSize⟩,
        c) := by
  obtain ⟨e, hget⟩ := Txn.Get_absent h.env.root Option.none h.dbi k habs
  have hput : Txn.Put ⟨h.env.root, Option.none⟩ h.dbi k v PutFlag.NoOverwrite =
      (some Errno.badValSize, ⟨h.env.root, Option.none⟩) := by
    simp only [Txn.Put, if_pos hbad]
  exact ⟨e, by
    simp [Handler.setnx, Handler.view, Handler.update, Env.View, Env.UpdateLocked, Env.run,
      Faults.none, hget, hput, Handler.logged]⟩

/-- C2, as the claim states it, fails: the engine stores neither the empty key
nor a key of 512 bytes nor a value of 4294967296 bytes, and `setnx` with one of
these on an empty root table, the engine raising no failure of its own, writes
no reply at all and leaves the root table empty. -/
theorem setnx_unstorable_no_reply :
    (Dataset.get emptyHandler.env.root [] = Option.none ∧
        ∃ h1, Handler.setnx Faults.none Faults.none emptyHandler freshConn
          ⟨[lit "setnx", [], lit "a"]⟩ = some (h1, freshConn) ∧ h1.env.root = []) ∧
      (Dataset.get emptyHandler.env.root (List.replicate 512 0) = Option.none ∧
        ∃ h1, Handler.setnx Faults.none Faults.none emptyHandler freshConn
          ⟨[lit "setnx", List.replicate 512 0, lit "a"]⟩ = some (h1, freshConn) ∧
          h1.env.root = []) ∧
      (Dataset.get emptyHandler.env.root (lit "k") = Option.none ∧
        ∃ h1, Handler.setnx Faults.none Faults.none emptyHandler freshConn
          ⟨[lit "setnx", lit "k", List.replicate 4294967296 0]⟩ = some (h1, freshConn) ∧
          h1.env.root = []) := by
  have h0 : ∀ k, Dataset.get emptyHandler.env.root k = Option.none := by
    intro k
    simp [Dataset.get, emptyHandler, sampleEnv]
  refine ⟨⟨h0 _, ?_⟩, ⟨h0 _, ?_⟩, ⟨h0 _, ?_⟩⟩
  · obtain ⟨e, he⟩ := setnx_unstorable emptyHandler freshConn (lit "setnx") [] (lit "a") (h0 _)
      (Or.inl rfl)
    exact ⟨_, he, rfl⟩
  · obtain ⟨e, he⟩ := setnx_unstorable emptyHandler freshConn (lit "setnx")
      (List.replicate 512 0) (lit "a") (h0 _)
      (Or.inr (Or.inl (by rw [List.length_replicate]; decide)))
    exact ⟨_, he, rfl⟩
  · obtain ⟨e, he⟩ := setnx_unstorable emptyHandler freshConn (lit "setnx") (lit "k")
      (List.replicate 4294967296 0) (h0 _)
      (Or.inr (Or.inr (by rw [List.length_replicate]; decide)))
    exact ⟨_, he, rfl⟩

/-- C2 amended: on a root table in which `k` is not bound, for a key of 1 to
511 bytes and a value `v1` of at most 4294967295 bytes (the sizes the engine
stores), and with an engine that serves the transactions, `setnx k v1` replies
integer 1 and leaves `k` bound to `v1` and every other key as it was; a
following `setnx k v2` replies integer 0 after a single read transaction (no
write transaction is issued, whatever the engine would have done with one) and
leaves the root table as it was, `k` still bound to `v1`. -/
theorem setnx_twice_storable (h : Handler) (conn : Conn) (n1 n2 k v1 v2 : Bytes)
    (habs : Dataset.get h.env.root k = Option.none)
    (hk : 0 < k.length) (hk2 : k.length ≤ maxKeySize) (hv : v1.length ≤ maxDataSize) :
    ∃ h1 c1, Handler.setnx Faults.none Faults.none h conn ⟨[n1, k, v1]⟩ = some (h1, c1) ∧
      c1.out = conn.out ++ [Reply.int 1] ∧
      Dataset.get h1.env.root k = some v1 ∧
      (∀ k2, k2 ≠ k → Dataset.get h1.env.root k2 = Dataset.get h.env.root k2) ∧
      ∀ (fu : Faults) (c : Conn), ∃ h2 c2,
        Handler.setnx Faults.none fu h1 c ⟨[n2, k, v2]⟩ = some (h2, c2) ∧
        c2.out = c.out ++ [Reply.int 0] ∧
        h2.env.txns = h1.env.txns ++ [⟨TxnKind.view, Option.none⟩] ∧
        h2.env.root = h1.env.root ∧
        Dataset.get h2.env.root k = some v1 := by
  refine ⟨_, _, setnx_absent h conn n1 k v1 habs hk hk2 hv, rfl,
    Dataset.get_put_self _ _ _ hk hk2, fun k2 hne => Dataset.get_put_other _ _ _ _ hne,
    fun fu c => ?_⟩
  refine ⟨_, _, setnx_present fu _ c n2 k v2 v1 (Dataset.get_put_self _ _ _ hk hk2), rfl, rfl,
    rfl, Dataset.get_put_self _ _ _ hk hk2⟩

/-- C2 amended, at a concrete input: `setnx k a` then `setnx k b` on an empty
root table. -/
theorem setnx_twice_storable_witness :
    Dataset.get emptyHandler.env.root (lit "k") = Option.none ∧
      0 < (lit "k").length ∧ (lit "k").length ≤ maxKeySize ∧ (lit "a").length ≤ maxDataSize ∧
      ∃ h1 c1, Handler.setnx Faults.none Faults.none emptyHandler freshConn
          ⟨[lit "setnx", lit "k", lit "a"]⟩ = some (h1, c1) ∧
        c1.out = freshConn.out ++ [Reply.int 1] ∧
        Dataset.get h1.env.root (lit "k") = some (lit "a") ∧
        (∀ k2, k2 ≠ lit "k" →
          Dataset.get h1.env.root k2 = Dataset.get emptyHandler.env.root k2) ∧
        ∀ (fu : Faults) (c : Conn), ∃ h2 c2,
          Handler.setnx Faults.none fu h1 c ⟨[lit "setnx", lit "k", lit "b"]⟩ = some (h2, c2) ∧
          c2.out = c.out ++ [Reply.int 0] ∧
          h2.env.txns = h1.env.txns ++ [⟨TxnKind.view, Option.none⟩] ∧
          h2.env.root = h1.env.root ∧
          Dataset.get h2.env.root (lit "k") = some (lit "a") :=
  ⟨by decide, by decide, by decide, by decide,
    setnx_twice_storable emptyHandler freshConn (lit "setnx") (lit "setnx") (lit "k") (lit "a")
      (lit "b") (by decide) (by decide) (by decide) (by decide)⟩

/-- With no engine failure, `del` on a key that is bound removes the binding
and replies 1. -/
theorem delete_present (h : Handler) (c : Conn) (name k w : Bytes)
    (hpres : Dataset.get h.env.root k = some w) :
    Handler.delete Faults.none h c ⟨[name, k]⟩ =
      some (⟨{ h.env with
            root := Dataset.del h.env.root k
            txns := h.env.txns ++ [⟨TxnKind.update, Option.none⟩] }, h.dbi⟩,
        c.WriteInt 1) := by
  simp [Handler.delete, Handler.update, Env.UpdateLocked, Env.run, Faults.none,
    Txn.Del_present _ _ _ _ hpres]

/-- C3: on a root table in which `k` is bound, and with an engine that serves
the transactions, `del k` replies integer 1, every other key keeps its value,
and `get k` on the resulting root table replies null. -/
theorem del_then_get (h : Handler) (conn : Conn) (name k w : Bytes)
    (hpres : Dataset.get h.env.root k = some w) :
    ∃ h1 c1, Handler.delete Faults.none h conn ⟨[name, k]⟩ = some (h1, c1) ∧
      c1.out = conn.out ++ [Reply.int 1] ∧
      (∀ k2, k2 ≠ k → Dataset.get h1.env.root k2 = Dataset.get h.env.root k2) ∧
      ∀ (gname : Bytes) (c : Conn), ∃ h2 c2,
        Handler.get Faults.none h1 c ⟨[gname, k]⟩ = some (h2, c2) ∧
        c2.out = c.out ++ [Reply.null] := by
  refine ⟨_, _, delete_present h conn name k w hpres, rfl,
    fun k2 hne => Dataset.get_del_other _ _ _ hne, fun gname c => ?_⟩
  rw [get_noFault]
  simp only [Dataset.get_del_self]
  exact ⟨_, _, rfl, rfl⟩

/-- C3 at a concrete input: `del k` on a root table binding `k` to `old`. -/
theorem del_then_get_witness :
    Dataset.get sampleHandler.env.root (lit "k") = some (lit "old") ∧
      ∃ h1 c1, Handler.delete Faults.none sampleHandler freshConn ⟨[lit "del", lit "k"]⟩ =
          some (h1, c1) ∧
        c1.out = freshConn.out ++ [Reply.int 1] ∧
        (∀ k2, k2 ≠ lit "k" →
          Dataset.get h1.env.root k2 = Dataset.get sampleHandler.env.root k2) ∧
        ∀ (gname : Bytes) (c : Conn), ∃ h2 c2,
          Handler.get Faults.none h1 c ⟨[gname, lit "k"]⟩ = some (h2, c2) ∧
          c2.out = c.out ++ [Reply.null] :=
  ⟨by decide, del_then_get sampleHandler freshConn (lit "del") (lit "k") (lit "old") (by decide)⟩

/-- C4: on a root table in which `k` is not bound, whatever failure the engine
raises inside the transaction or at its commit, once the transaction has begun
`get k` writes exactly one reply, null (not a bulk reply), `del k` writes
exactly one reply, integer 0, and both leave the root table as it was. -/
theorem absent_get_del (f : Faults) (h : Handler) (conn : Conn) (gname dname k : Bytes)
    (habs : Dataset.get h.env.root k = Option.none) (hbegin : f.onBegin = Option.none) :
    (∃ h1 c1, Handler.get f h conn ⟨[gname, k]⟩ = some (h1, c1) ∧
        c1.out = conn.out ++ [Reply.null] ∧ h1.env.root = h.env.root) ∧
      ∃ h1 c1, Handler.delete f h conn ⟨[dname, k]⟩ = some (h1, c1) ∧
        c1.out = conn.out ++ [Reply.int 0] ∧ h1.env.root = h.env.root := by
  rcases f with ⟨fb, fo, fc⟩
  simp only at hbegin
  subst hbegin
  obtain ⟨e1, hget⟩ := Txn.Get_absent h.env.root fo h.dbi k habs
  obtain ⟨e2, hdel⟩ := Txn.Del_absent h.env.root fo h.dbi k habs
  constructor
  · simp only [Handler.get, Handler.view, Env.View, Env.run, hget, Conn.WriteNull]
    exact ⟨_, _, rfl, rfl, rfl⟩
  · simp only [Handler.delete, Handler.update, Env.UpdateLocked, Env.run, hdel, Conn.WriteInt]
    exact ⟨_, _, rfl, rfl, rfl⟩

/-- C4 at a concrete input: `get k` and `del k` on an empty root table. -/
theorem absent_get_del_witness :
    Dataset.get emptyHandler.env.root (lit "k") = Option.none ∧
      Faults.none.onBegin = Option.none ∧
      (∃ h1 c1, Handler.get Faults.none emptyHandler freshConn ⟨[lit "get", lit "k"]⟩ =
          some (h1, c1) ∧
        c1.out = freshConn.out ++ [Reply.null] ∧ h1.env.root = emptyHandler.env.root) ∧
      ∃ h1 c1, Handler.delete Faults.none emptyHandler freshConn ⟨[lit "del", lit "k"]⟩ =
          some (h1, c1) ∧
        c1.out = freshConn.out ++ [Reply.int 0] ∧ h1.env.root = emptyHandler.env.root :=
  ⟨by decide, rfl,
    absent_get_del Faults.none emptyHandler freshConn (lit "get") (lit "del") (lit "k")
      (by decide) rfl⟩

/-- C5: when the argument list `name :: rest` of `set` or `setnx` does not
have 3 entries, or that of `get` does not have 2, the command returns the
handler it was given (no transaction is recorded, the root table is the same)
and writes exactly one reply, the error whose text is
`ERR wrong number of arguments for '` followed by `name` and `' command`. -/
theorem wrong_arg_count (f fu : Faults) (h : Handler) (conn : Conn) (name : Bytes)
    (rest : List Bytes) :
    ((name :: rest).length ≠ 3 →
        Handler.set f h conn ⟨name :: rest⟩ =
            some (h, ⟨conn.out ++ [Reply.error
              (lit "ERR wrong number of arguments for '" ++ name ++ lit "' command")],
              conn.closed⟩) ∧
          Handler.setnx f fu h conn ⟨name :: rest⟩ =
            some (h, ⟨conn.out ++ [Reply.error
              (lit "ERR wrong number of arguments for '" ++ name ++ lit "' command")],
              conn.closed⟩)) ∧
      ((name :: rest).length ≠ 2 →
        Handler.get f h conn ⟨name :: rest⟩ =
          some (h, ⟨conn.out ++ [Reply.error
            (lit "ERR wrong number of arguments for '" ++ name ++ lit "' command")],
            conn.closed⟩)) := by
  refine ⟨fun hlen => ⟨?_, ?_⟩, fun hlen => ?_⟩
  · simp only [Handler.set, if_pos hlen]
    rfl
  · simp only [Handler.setnx, if_pos hlen]
    rfl
  · simp only [Handler.get, if_pos hlen]
    rfl

/-- C5 at concrete inputs: `set k`, `setnx k` and `get` with one argument too
few, on a handler that binds `k`. -/
theorem wrong_arg_count_witness :
    (Handler.set Faults.none sampleHandler freshConn ⟨[lit "set", lit "k"]⟩ =
        some (sampleHandler,
          ⟨[Reply.error (lit "ERR wrong number of arguments for 'set' command")], false⟩)) ∧
      (Handler.setnx Faults.none Faults.none sampleHandler freshConn ⟨[lit "setnx", lit "k"]⟩ =
        some (sampleHandler,
          ⟨[Reply.error (lit "ERR wrong number of arguments for 'setnx' command")], false⟩)) ∧
      (Handler.get Faults.none sampleHandler freshConn ⟨[lit "get"]⟩ =
        some (sampleHandler,
          ⟨[Reply.error (lit "ERR wrong number of arguments for 'get' command")], false⟩)) :=
  ⟨((wrong_arg_count Faults.none Faults.none sampleHandler freshConn (lit "set") [lit "k"]).1
      (by decide)).1,
    ((wrong_arg_count Faults.none Faults.none sampleHandler freshConn (lit "setnx") [lit "k"]).1
      (by decide)).2,
    (wrong_arg_count Faults.none Faults.none sampleHandler freshConn (lit "get") []).2
      (by decide)⟩

/-- C6, as the claim states it, fails: `del` with no key writes the error reply
only; no integer reply 0 follows it. -/
theorem delete_wrong_args_no_int :
    ∃ h1 c1, Handler.delete Faults.none emptyHandler freshConn ⟨[lit "del"]⟩ = some (h1, c1) ∧
      c1.out = [Reply.error (lit "ERR wrong number of arguments for 'del' command")] ∧
      Reply.int 0 ∉ c1.out :=
  ⟨emptyHandler, ⟨[Reply.error (lit "ERR wrong number of arguments for 'del' command")], false⟩,
    by decide, rfl, by decide⟩

/-- C6 amended: when the argument list `name :: rest` of `del` does not have 2
entries, the command returns the handler it was given (no transaction is
recorded, the root table is the same) and writes exactly one reply, the
wrong-number-of-arguments error; no integer reply is written. -/
theorem delete_wrong_arg_count (f : Faults) (h : Handler) (conn : Conn) (name : Bytes)
    (rest : List Bytes) (hlen : (name :: rest).length ≠ 2) :
    Handler.delete f h conn ⟨name :: rest⟩ =
      some (h, ⟨conn.out ++ [Reply.error
        (lit "ERR wrong number of arguments for '" ++ name ++ lit "' command")],
        conn.closed⟩) := by
  simp only [Handler.delete, if_pos hlen]
  rfl

/-- C6 amended, at a concrete input: `del a b` on a handler that binds `k`. -/
theorem delete_wrong_arg_count_witness :
    [lit "del", lit "a", lit "b"].length ≠ 2 ∧
      Handler.delete Faults.none sampleHandler freshConn ⟨[lit "del", lit "a", lit "b"]⟩ =
        some (sampleHandler,
          ⟨[Reply.error (lit "ERR wrong number of arguments for 'del' command")], false⟩) :=
  ⟨by decide,
    delete_wrong_arg_count Faults.none sampleHandler freshConn (lit "del") [lit "a", lit "b"]
      (by decide)⟩

/-- C7 at its failing input: `setnx k v` on an empty root table, the existence
check reporting not-found and the write then failing with map-full.  Two
transactions are issued, the root table stays empty, and nothing at all is
written on the connection. -/
theorem setnx_failed_write_no_reply :
    Handler.setnx Faults.none ⟨Option.none, some Errno.mapFull, Option.none⟩ emptyHandler
        freshConn ⟨[lit "setnx", lit "k", lit "v"]⟩ =
      some (⟨{ sampleEnv [] with
            txns := [⟨TxnKind.view, some Errno.notFound⟩, ⟨TxnKind.update, some Errno.mapFull⟩] },
          DBI.root⟩,
        ⟨[], false⟩) := by
  decide

/-- C8 at its failing input: `set k v` whose put goes through and whose commit
fails with no-space.  The transaction is recorded as failed, the root table is
still empty, and the reply is the simple string `OK`. -/
theorem set_ok_without_commit :
    Handler.set ⟨Option.none, Option.none, some Errno.noSpc⟩ emptyHandler freshConn
        ⟨[lit "set", lit "k", lit "v"]⟩ =
      some (⟨{ sampleEnv [] with txns := [⟨TxnKind.update, some Errno.noSpc⟩] }, DBI.root⟩,
        ⟨[Reply.str (lit "OK")], false⟩) := by
  decide

/-! ## Construction -/

/-- C9 at its failing inputs: when `SetMapSize`, `SetMaxDBs` or `Open` fails,
`NewHandler` returns the error and no handler and starts no worker, and the
environment it created is left unclosed; only a failure of the transaction
that opens the root table closes it. -/
theorem NewHandler_early_failure_leaves_env_open (path : Bytes) (disk : Dataset) (e : Errno)
    (f : InitFaults) :
    (∃ env, NewHandler path disk { f with newEnv := Option.none, setMapSize := some e } =
        ⟨Option.none, some e, some env, false⟩ ∧ env.closed = false) ∧
      (∃ env, NewHandler path disk
          { f with newEnv := Option.none, setMapSize := Option.none, setMaxDBs := some e } =
        ⟨Option.none, some e, some env, false⟩ ∧ env.closed = false) ∧
      (∃ env, NewHandler path disk
          { f with newEnv := Option.none, setMapSize := Option.none, setMaxDBs := Option.none,
                   openEnv := some e } =
        ⟨Option.none, some e, some env, false⟩ ∧ env.closed = false) ∧
      (∃ env, NewHandler path disk
          { f with newEnv := Option.none, setMapSize := Option.none, setMaxDBs := Option.none,
                   openEnv := Option.none, update := ⟨some e, Option.none, Option.none⟩ } =
        ⟨Option.none, some e, some env, false⟩ ∧ env.closed = true) :=
  ⟨⟨_, rfl, rfl⟩, ⟨_, rfl, rfl⟩, ⟨_, rfl, rfl⟩, ⟨_, rfl, rfl⟩⟩

/-! ## The worker serialises the writes -/

theorem serial_append (hs : List Nat) (i : Nat) :
    serial (hs ++ [i]) = serial hs ++ [WEvent.began i, WEvent.ended i] := by
  induction hs with
  | nil => rfl
  | cons j hs ih => simp [serial, ih]

theorem ended_mem_serial (hs : List Nat) (i : Nat) (hi : i ∈ hs) :
    WEvent.ended i ∈ serial hs := by
  induction hs with
  | nil => cases hi
  | cons j hs ih =>
    rcases List.mem_cons.1 hi with rfl | h
    · simp [serial]
    · simp [serial, ih h]

theorem inFlight_serial (hs : List Nat) : inFlight (serial hs) = [] := by
  induction hs with
  | nil => rfl
  | cons j hs ih =>
    simp only [inFlight, serial, List.foldl_cons, List.nil_append] at ih ⊢
    simpa using ih

theorem inFlight_serial_began (hs : List Nat) (i : Nat) :
    inFlight (serial hs ++ [WEvent.began i]) = [i] := by
  have h := inFlight_serial hs
  simp only [inFlight] at h
  simp [inFlight, List.foldl_append, h]

/-- Reading the task list after one task moved. -/
theorem getElem?_set_of (l : List ClientPc) (i j : Nat) (old new : ClientPc)
    (h : l[i]? = some old) : (l.set i new)[j]? = if j = i then some new else l[j]? := by
  have hlt : i < l.length := by
    by_contra hge
    rw [List.getElem?_eq_none (Nat.le_of_not_lt hge)] at h
    cases h
  by_cases hji : j = i
  · subst hji
    simp [List.getElem?_set_self hlt]
  · simp [hji, List.getElem?_set_ne (Ne.symm hji)]

theorem Sys.inv_init (n : Nat) : (Sys.init n).Inv := by
  refine ⟨rfl, List.nodup_nil, fun i => ?_, fun i => ?_, fun j hj => ?_⟩
  · simp only [Sys.init, List.getElem?_replicate]
    constructor
    · intro h
      cases h
    · rintro ⟨pc, hpc, hp⟩
      split at hpc
      · cases hpc
        cases hp
      · cases hpc
  · simp only [Sys.init, List.getElem?_replicate, WorkerPc.task]
    constructor
    · intro h
      cases h
    · rintro ⟨pc, hpc, hp⟩
      split at hpc
      · cases hpc
        cases hp
      · cases hpc
  · cases hj

theorem Sys.inv_step (s s1 : Sys) (a : Action) (hinv : s.Inv) (hstep : s.step a = some s1) :
    s1.Inv := by
  obtain ⟨hw, hnd, hpast, htask, hwr⟩ := hinv
  cases a with
  | lock i =>
    simp only [Sys.step] at hstep
    split at hstep
    · rename_i hc
      obtain ⟨hci, -, -⟩ := hc
      cases hstep
      refine ⟨hw, hnd, fun j => ?_, fun j => ?_, fun j hj => ?_⟩
      · rw [hpast j]
        simp only [getElem?_set_of _ i j _ _ hci]
        by_cases hji : j = i
        · subst hji
          simp [hci, ClientPc.pastSend]
        · simp [hji]
      · rw [htask j]
        simp only [getElem?_set_of _ i j _ _ hci]
        by_cases hji : j = i
        · subst hji
          simp [hci, ClientPc.pending]
        · simp [hji]
      · simp only [Option.some.injEq] at hj
        subst hj
        simp [getElem?_set_of _ i i _ _ hci]
    · cases hstep
  | send i =>
    simp only [Sys.step] at hstep
    split at hstep
    · rename_i hc
      obtain ⟨hci, hrecv⟩ := hc
      cases hstep
      have hlog : s.log = serial s.handed := by
        have h := hw
        rw [hrecv] at h
        exact h
      have hnot : i ∉ s.handed := by
        intro h
        obtain ⟨pc, hpc, hp⟩ := (hpast i).1 h
        rw [hci] at hpc
        cases hpc
        cases hp
      refine ⟨⟨s.handed, rfl, hlog⟩, ?_, fun j => ?_, fun j => ?_, fun j hj => ?_⟩
      · exact List.Nodup.append hnd (List.nodup_singleton i)
          (by intro x hx hx2; rw [List.mem_singleton] at hx2; exact hnot (hx2 ▸ hx))
      · simp only [getElem?_set_of _ i j _ _ hci, List.mem_append, List.mem_singleton]
        by_cases hji : j = i
        · subst hji
          simp [ClientPc.pastSend]
        · simp [hji, hpast j]
      · simp only [getElem?_set_of _ i j _ _ hci, WorkerPc.task, Option.some.injEq]
        by_cases hji : j = i
        · subst hji
          simp [ClientPc.pending]
        · have hnone : ¬ ∃ pc, s.clients[j]? = some pc ∧ pc.pending = true := by
            intro h
            have := (htask j).2 h
            rw [hrecv] at this
            cases this
          simp only [hji, if_false]
          constructor
          · intro h
            exact absurd h.symm hji
          · intro h
            exact absurd h hnone
      · have := hwr j hj
        simp only [getElem?_set_of _ i j _ _ hci]
        by_cases hji : j = i
        · subst hji
          simp
        · simpa [hji] using this
    · cases hstep
  | unlock i =>
    simp only [Sys.step] at hstep
    split at hstep
    · rename_i hci
      cases hstep
      refine ⟨hw, hnd, fun j => ?_, fun j => ?_, fun j hj => ?_⟩
      · rw [hpast j]
        simp only [getElem?_set_of _ i j _ _ hci]
        by_cases hji : j = i
        · subst hji
          simp [hci, ClientPc.pastSend]
        · simp [hji]
      · rw [htask j]
        simp only [getElem?_set_of _ i j _ _ hci]
        by_cases hji : j = i
        · subst hji
          simp [hci, ClientPc.pending]
        · simp [hji]
      · cases hj
    · cases hstep
  | txnBegin =>
    simp only [Sys.step] at hstep
    split at hstep
    · rename_i i hwi
      cases hstep
      rw [hwi] at hw
      obtain ⟨hs, hh, hl⟩ := hw
      refine ⟨⟨hs, hh, by simp [hl]⟩, hnd, hpast, fun j => ?_, hwr⟩
      rw [← htask j, hwi]
      rfl
    · cases hstep
  | txnEnd =>
    simp only [Sys.step] at hstep
    split at hstep
    · rename_i i hwi
      cases hstep
      rw [hwi] at hw
      obtain ⟨hs, hh, hl⟩ := hw
      refine ⟨?_, hnd, hpast, fun j => ?_, hwr⟩
      · show s.log ++ [WEvent.ended i] = serial s.handed
        rw [hh, serial_append, hl]
        simp
      · rw [← htask j, hwi]
        rfl
    · cases hstep
  | deliver i =>
    simp only [Sys.step] at hstep
    split at hstep
    · rename_i hc
      obtain ⟨hrep, hci⟩ := hc
      cases hstep
      have hlog : s.log = serial s.handed := by
        have h := hw
        rw [hrep] at h
        exact h
      refine ⟨hlog, hnd, fun j => ?_, fun j => ?_, fun j hj => ?_⟩
      · rw [hpast j]
        simp only [getElem?_set_of _ i j _ _ hci]
        by_cases hji : j = i
        · subst hji
          simp [hci, ClientPc.pastSend]
        · simp [hji]
      · simp only [getElem?_set_of _ i j _ _ hci, WorkerPc.task]
        by_cases hji : j = i
        · subst hji
          simp [ClientPc.pending]
        · have hnone : ¬ ∃ pc, s.clients[j]? = some pc ∧ pc.pending = true := by
            intro h
            have := (htask j).2 h
            rw [hrep] at this
            simp only [WorkerPc.task, Option.some.injEq] at this
            exact hji this.symm
          simp only [hji, if_false]
          constructor
          · intro h
            cases h
          · intro h
            exact absurd h hnone
      · have := hwr j hj
        simp only [getElem?_set_of _ i j _ _ hci]
        by_cases hji : j = i
        · subst hji
          rw [hci] at this
          simp at this
        · simpa [hji] using this
    · cases hstep
  | rlock =>
    simp only [Sys.step] at hstep
    split at hstep
    · cases hstep
      exact ⟨hw, hnd, hpast, htask, hwr⟩
    · cases hstep
  | runlock =>
    simp only [Sys.step] at hstep
    split at hstep
    · cases hstep
      exact ⟨hw, hnd, hpast, htask, hwr⟩
    · cases hstep

theorem Sys.inv_run (acts : List Action) (s s1 : Sys) (hinv : s.Inv)
    (hrun : s.run acts = some s1) : s1.Inv := by
  induction acts generalizing s with
  | nil =>
    simp only [Sys.run] at hrun
    cases hrun
    exact hinv
  | cons a rest ih =>
    simp only [Sys.run] at hrun
    cases hst : s.step a with
    | none => simp [hst] at hrun
    | some s2 =>
      rw [hst] at hrun
      exact ih s2 (Sys.inv_step s s2 a hinv hst) hrun

theorem sum_weight_set (l : List ClientPc) (i : Nat) (old new : ClientPc)
    (h : l[i]? = some old) :
    ((l.set i new).map ClientPc.weight).sum + old.weight =
      (l.map ClientPc.weight).sum + new.weight := by
  induction l generalizing i with
  | nil => simp at h
  | cons x l ih =>
    cases i with
    | zero =>
      simp only [List.getElem?_cons_zero, Option.some.injEq] at h
      subst h
      simp only [List.set_cons_zero, List.map_cons, List.sum_cons]
      omega
    | succ i =>
      simp only [List.getElem?_cons_succ] at h
      have := ih i h
      simp only [List.set_cons_succ, List.map_cons, List.sum_cons]
      omega

theorem Sys.length_step (s s1 : Sys) (a : Action) (hstep : s.step a = some s1) :
    s1.clients.length = s.clients.length := by
  cases a <;> simp only [Sys.step] at hstep <;> split at hstep <;> cases hstep <;>
    simp [List.length_set]

theorem Sys.length_run (acts : List Action) (s s1 : Sys) (hrun : s.run acts = some s1) :
    s1.clients.length = s.clients.length := by
  induction acts generalizing s with
  | nil =>
    simp only [Sys.run] at hrun
    cases hrun
    rfl
  | cons a rest ih =>
    simp only [Sys.run] at hrun
    cases hst : s.step a with
    | none => simp [hst] at hrun
    | some s2 =>
      rw [hst] at hrun
      rw [ih s2 hrun, Sys.length_step s s2 a hst]

/-- As long as some task has not returned, some step is enabled that brings
the system closer to the end. -/
theorem Sys.progress (s : Sys) (hinv : s.Inv) (i : Nat) (pc : ClientPc)
    (hi : s.clients[i]? = some pc) (hpc : pc ≠ ClientPc.returned) :
    ∃ a s1, s.step a = some s1 ∧ s1.todo < s.todo := by
  obtain ⟨-, -, -, htask, hwr⟩ := hinv
  by_cases hr : 0 < s.readers
  · refine ⟨Action.runlock, { s with readers := s.readers - 1 }, by simp [Sys.step, hr], ?_⟩
    simp only [Sys.todo]
    omega
  have hr0 : s.readers = 0 := by omega
  cases hwk : s.worker with
  | holding j =>
    refine ⟨Action.txnBegin,
      { s with worker := WorkerPc.running j, log := s.log ++ [WEvent.began j] },
      by simp only [Sys.step, hwk], ?_⟩
    simp [Sys.todo, hwk, WorkerPc.weight]
  | running j =>
    refine ⟨Action.txnEnd,
      { s with worker := WorkerPc.replying j, log := s.log ++ [WEvent.ended j] },
      by simp only [Sys.step, hwk], ?_⟩
    simp [Sys.todo, hwk, WorkerPc.weight]
  | replying j =>
    obtain ⟨pj, hpj, hpend⟩ := (htask j).1 (by rw [hwk]; rfl)
    cases pj with
    | calling => cases hpend
    | locked => cases hpend
    | returned => cases hpend
    | sent =>
      refine ⟨Action.unlock j,
        { s with clients := s.clients.set j ClientPc.waiting, writer := none },
        by simp only [Sys.step, hpj, if_true], ?_⟩
      have := sum_weight_set s.clients j _ ClientPc.waiting hpj
      simp only [Sys.todo, ClientPc.weight] at this ⊢
      omega
    | waiting =>
      refine ⟨Action.deliver j,
        { s with clients := s.clients.set j ClientPc.returned, worker := WorkerPc.receiving },
        by simp [Sys.step, hpj, hwk], ?_⟩
      have := sum_weight_set s.clients j _ ClientPc.returned hpj
      simp only [Sys.todo, ClientPc.weight, hwk, WorkerPc.weight] at this ⊢
      omega
  | receiving =>
    have hnopend : ∀ (j : Nat) (pj : ClientPc), s.clients[j]? = some pj →
        pj.pending = false := by
      intro j pj hj
      by_contra hp
      have := (htask j).2 ⟨pj, hj, by simpa using hp⟩
      rw [hwk] at this
      cases this
    by_cases hlk : ∃ j : Nat, s.clients[j]? = some ClientPc.locked
    · obtain ⟨j, hj⟩ := hlk
      refine ⟨Action.send j,
        { s with
          clients := s.clients.set j ClientPc.sent
          worker := WorkerPc.holding j
          handed := s.handed ++ [j] },
        by simp [Sys.step, hj, hwk], ?_⟩
      have := sum_weight_set s.clients j _ ClientPc.sent hj
      simp only [Sys.todo, ClientPc.weight, hwk, WorkerPc.weight] at this ⊢
      omega
    · have hwn : s.writer = none := by
        cases hwj : s.writer with
        | none => rfl
        | some j =>
          rcases hwr j hwj with h | h
          · exact absurd ⟨j, h⟩ hlk
          · have := hnopend j _ h
            cases this
      cases pc with
      | returned => exact absurd rfl hpc
      | locked => exact absurd ⟨i, hi⟩ hlk
      | sent => cases hnopend i _ hi
      | waiting => cases hnopend i _ hi
      | calling =>
        refine ⟨Action.lock i,
          { s with clients := s.clients.set i ClientPc.locked, writer := some i },
          by simp [Sys.step, hi, hwn, hr0], ?_⟩
        have := sum_weight_set s.clients i _ ClientPc.locked hi
        simp only [Sys.todo, ClientPc.weight] at this ⊢
        omega

/-- From every state that satisfies the invariant some schedule leads to a
state in which every task has returned. -/
theorem Sys.complete (m : Nat) (s : Sys) (hinv : s.Inv) (hm : s.todo ≤ m) :
    ∃ acts s1, s.run acts = some s1 ∧ ∀ pc ∈ s1.clients, pc = ClientPc.returned := by
  induction m generalizing s with
  | zero =>
    by_cases hall : ∀ pc ∈ s.clients, pc = ClientPc.returned
    · exact ⟨[], s, rfl, hall⟩
    · simp only [not_forall] at hall
      obtain ⟨pc, hmem, hne⟩ := hall
      obtain ⟨i, hi⟩ := List.getElem?_of_mem hmem
      obtain ⟨a, s1, -, hlt⟩ := Sys.progress s hinv i pc hi hne
      omega
  | succ m ih =>
    by_cases hall : ∀ pc ∈ s.clients, pc = ClientPc.returned
    · exact ⟨[], s, rfl, hall⟩
    · simp only [not_forall] at hall
      obtain ⟨pc, hmem, hne⟩ := hall
      obtain ⟨i, hi⟩ := List.getElem?_of_mem hmem
      obtain ⟨a, s1, hst, hlt⟩ := Sys.progress s hinv i pc hi hne
      obtain ⟨acts, s2, hrun, hall2⟩ := ih s1 (Sys.inv_step s s1 a hinv hst) (by omega)
      exact ⟨a :: acts, s2, by simp only [Sys.run, hst, hrun], hall2⟩

/-- A task that has returned had its write run to the end. -/
theorem Sys.ended_of_returned (s : Sys) (hinv : s.Inv) (i : Nat)
    (hi : s.clients[i]? = some ClientPc.returned) : WEvent.ended i ∈ s.log := by
  obtain ⟨hw, -, hpast, htask, -⟩ := hinv
  have hmem : i ∈ s.handed := (hpast i).2 ⟨_, hi, rfl⟩
  have hnot : s.worker.task ≠ some i := by
    intro h
    obtain ⟨pc, hpc, hp⟩ := (htask i).1 h
    rw [hi] at hpc
    cases hpc
    cases hp
  cases hwk : s.worker with
  | receiving =>
    rw [hwk] at hw
    have hw2 : s.log = serial s.handed := hw
    exact hw2 ▸ ended_mem_serial _ _ hmem
  | replying j =>
    rw [hwk] at hw
    have hw2 : s.log = serial s.handed := hw
    exact hw2 ▸ ended_mem_serial _ _ hmem
  | holding j =>
    rw [hwk] at hw hnot
    obtain ⟨hs, hh, hl⟩ := hw
    have hij : i ≠ j := fun h => hnot (by rw [h]; rfl)
    rw [hh] at hmem
    rcases List.mem_append.1 hmem with h | h
    · rw [hl]
      exact ended_mem_serial _ _ h
    · exact absurd (List.mem_singleton.1 h) hij
  | running j =>
    rw [hwk] at hw hnot
    obtain ⟨hs, hh, hl⟩ := hw
    have hij : i ≠ j := fun h => hnot (by rw [h]; rfl)
    rw [hh] at hmem
    rcases List.mem_append.1 hmem with h | h
    · rw [hl]
      exact List.mem_append_left _ (ended_mem_serial _ _ h)
    · exact absurd (List.mem_singleton.1 h) hij

theorem Sys.history_step (s s1 : Sys) (a : Action) (hstep : s.step a = some s1) :
    s.handed <+: s1.handed ∧ s.log <+: s1.log := by
  cases a <;> simp only [Sys.step] at hstep <;> split at hstep <;> cases hstep <;>
    exact ⟨by simp, by simp⟩

theorem Sys.history_run (acts : List Action) (s s1 : Sys) (hrun : s.run acts = some s1) :
    s.handed <+: s1.handed ∧ s.log <+: s1.log := by
  induction acts generalizing s with
  | nil =>
    simp only [Sys.run] at hrun
    cases hrun
    exact ⟨List.prefix_refl _, List.prefix_refl _⟩
  | cons a rest ih =>
    simp only [Sys.run] at hrun
    cases hst : s.step a with
    | none => simp [hst] at hrun
    | some s2 =>
      rw [hst] at hrun
      have h1 := Sys.history_step s s2 a hst
      have h2 := ih s2 hrun
      exact ⟨h1.1.trans h2.1, h1.2.trans h2.2⟩

/-- C10: in every state that any schedule of the tasks, the worker and the
readers reaches:
the write transactions that have begun or ended are those of the operations
handed to the channel, in hand-off order, one after the other and each ended
before the next begins; no operation was handed over twice; at most one write
transaction has begun and not ended;
the operations handed over are exactly those of the tasks that are past their
send; a task to which `update` has returned had its transaction run to the
end;
every operation handed over has had its transaction ended, or has it ended
after at most the two steps the worker is then free to take;
and some schedule continues from the state, keeping what was handed over and
run so far, to a state in which `update` has returned to every task and the
transaction of every task has run, serially in hand-off order. -/
theorem worker_serializes (n : Nat) (acts : List Action) (s : Sys)
    (hrun : (Sys.init n).run acts = some s) :
    s.log <+: serial s.handed ∧
      s.handed.Nodup ∧
      (inFlight s.log).length ≤ 1 ∧
      (∀ i, i ∈ s.handed ↔
        s.clients[i]? = some ClientPc.sent ∨ s.clients[i]? = some ClientPc.waiting ∨
          s.clients[i]? = some ClientPc.returned) ∧
      (∀ i, s.clients[i]? = some ClientPc.returned → WEvent.ended i ∈ s.log) ∧
      (∀ i ∈ s.handed, ∃ acts2 s2, acts2 <:+ [Action.txnBegin, Action.txnEnd] ∧
        s.run acts2 = some s2 ∧ s2.log = serial s.handed ∧ WEvent.ended i ∈ s2.log) ∧
      ∃ acts3 s3, s.run acts3 = some s3 ∧
        s.handed <+: s3.handed ∧ s.log <+: s3.log ∧
        s3.clients = List.replicate n ClientPc.returned ∧
        s3.log = serial s3.handed ∧ ∀ i, i < n → WEvent.ended i ∈ s3.log := by
  have hinv := Sys.inv_run acts (Sys.init n) s (Sys.inv_init n) hrun
  have hlen : s.clients.length = n := by
    rw [Sys.length_run acts (Sys.init n) s hrun]
    simp [Sys.init]
  obtain ⟨hw, hnd, hpast, -, -⟩ := hinv
  have hA : s.log <+: serial s.handed ∧ (inFlight s.log).length ≤ 1 ∧
      ∀ i ∈ s.handed, ∃ acts2 s2, acts2 <:+ [Action.txnBegin, Action.txnEnd] ∧
        s.run acts2 = some s2 ∧ s2.log = serial s.handed ∧ WEvent.ended i ∈ s2.log := by
    cases hwk : s.worker with
    | receiving =>
      rw [hwk] at hw
      have hw2 : s.log = serial s.handed := hw
      refine ⟨hw2 ▸ List.prefix_refl _, by rw [hw2, inFlight_serial]; simp, fun i hi => ?_⟩
      exact ⟨[], s, List.nil_suffix, rfl, hw2, hw2 ▸ ended_mem_serial _ _ hi⟩
    | replying j =>
      rw [hwk] at hw
      have hw2 : s.log = serial s.handed := hw
      refine ⟨hw2 ▸ List.prefix_refl _, by rw [hw2, inFlight_serial]; simp, fun i hi => ?_⟩
      exact ⟨[], s, List.nil_suffix, rfl, hw2, hw2 ▸ ended_mem_serial _ _ hi⟩
    | holding j =>
      rw [hwk] at hw
      obtain ⟨hs, hh, hl⟩ := hw
      refine ⟨?_, by rw [hl, inFlight_serial]; simp, fun i hi => ?_⟩
      · rw [hh, serial_append, hl]
        exact List.prefix_append _ _
      · refine ⟨[Action.txnBegin, Action.txnEnd],
          { s with worker := WorkerPc.replying j
                   log := s.log ++ [WEvent.began j] ++ [WEvent.ended j] },
          List.suffix_refl _, ?_, ?_, ?_⟩
        · simp only [Sys.run, Sys.step, hwk]
        · simp [hh, serial_append, hl]
        · have := ended_mem_serial _ _ hi
          simpa [hh, serial_append, hl] using this
    | running j =>
      rw [hwk] at hw
      obtain ⟨hs, hh, hl⟩ := hw
      refine ⟨?_, by rw [hl, inFlight_serial_began]; simp, fun i hi => ?_⟩
      · rw [hh, serial_append, hl]
        exact ⟨[WEvent.ended j], by simp⟩
      · refine ⟨[Action.txnEnd],
          { s with worker := WorkerPc.replying j, log := s.log ++ [WEvent.ended j] },
          ⟨[Action.txnBegin], rfl⟩, ?_, ?_, ?_⟩
        · simp only [Sys.run, Sys.step, hwk]
        · simp [hh, serial_append, hl]
        · have := ended_mem_serial _ _ hi
          simpa [hh, serial_append, hl] using this
  have hinv := Sys.inv_run acts (Sys.init n) s (Sys.inv_init n) hrun
  refine ⟨hA.1, hnd, hA.2.1, fun i => ?_, fun i hi => Sys.ended_of_returned s hinv i hi,
    hA.2.2, ?_⟩
  · rw [hpast i]
    constructor
    · rintro ⟨pc, hpc, hp⟩
      cases pc <;> simp_all [ClientPc.pastSend]
    · rintro (h | h | h) <;> exact ⟨_, h, rfl⟩
  · obtain ⟨acts3, s3, hrun3, hall⟩ := Sys.complete s.todo s hinv (Nat.le_refl _)
    have hinv3 := Sys.inv_run acts3 s s3 hinv hrun3
    have hlen3 : s3.clients.length = n := by rw [Sys.length_run acts3 s s3 hrun3, hlen]
    have hrep : s3.clients = List.replicate n ClientPc.returned :=
      List.eq_replicate_iff.2 ⟨hlen3, hall⟩
    have hget : ∀ i, i < n → s3.clients[i]? = some ClientPc.returned := by
      intro i hi
      rw [hrep, List.getElem?_replicate, if_pos hi]
    have hrecv : s3.worker = WorkerPc.receiving := by
      obtain ⟨-, -, -, htask3, -⟩ := hinv3
      cases hwk : s3.worker with
      | receiving => rfl
      | holding j =>
        obtain ⟨pc, hpc, hp⟩ := (htask3 j).1 (by rw [hwk]; rfl)
        have := hall pc (List.getElem?_mem hpc)
        subst this
        cases hp
      | running j =>
        obtain ⟨pc, hpc, hp⟩ := (htask3 j).1 (by rw [hwk]; rfl)
        have := hall pc (List.getElem?_mem hpc)
        subst this
        cases hp
      | replying j =>
        obtain ⟨pc, hpc, hp⟩ := (htask3 j).1 (by rw [hwk]; rfl)
        have := hall pc (List.getElem?_mem hpc)
        subst this
        cases hp
    have hlog3 : s3.log = serial s3.handed := by
      have h := hinv3.1
      rw [hrecv] at h
      exact h
    have hh := Sys.history_run acts3 s s3 hrun3
    exact ⟨acts3, s3, hrun3, hh.1, hh.2, hrep, hlog3,
      fun i hi => Sys.ended_of_returned s3 hinv3 i (hget i hi)⟩

/-- C10 at a concrete schedule of two tasks. -/
theorem worker_serializes_witness :
    (Sys.init 2).run sampleSchedule = some sampleSys ∧
      sampleSys.log <+: serial sampleSys.handed ∧
      sampleSys.handed.Nodup ∧
      (inFlight sampleSys.log).length ≤ 1 ∧
      (∀ i, i ∈ sampleSys.handed ↔
        sampleSys.clients[i]? = some ClientPc.sent ∨
          sampleSys.clients[i]? = some ClientPc.waiting ∨
          sampleSys.clients[i]? = some ClientPc.returned) ∧
      (∀ i, sampleSys.clients[i]? = some ClientPc.returned → WEvent.ended i ∈ sampleSys.log) ∧
      (∀ i ∈ sampleSys.handed, ∃ acts2 s2, acts2 <:+ [Action.txnBegin, Action.txnEnd] ∧
        sampleSys.run acts2 = some s2 ∧ s2.log = serial sampleSys.handed ∧
        WEvent.ended i ∈ s2.log) ∧
      ∃ acts3 s3, sampleSys.run acts3 = some s3 ∧
        sampleSys.handed <+: s3.handed ∧ sampleSys.log <+: s3.log ∧
        s3.clients = List.replicate 2 ClientPc.returned ∧
        s3.log = serial s3.handed ∧ ∀ i, i < 2 → WEvent.ended i ∈ s3.log :=
  ⟨by decide, worker_serializes 2 sampleSchedule sampleSys (by decide)⟩

end Mdb
